import Mathlib

/-!
Verification of the `spotify_web` session engine (`spotify_web/spotify.py`)
against its natural-language specification.

Python strings are modelled as `List Char`, Python dicts keyed by increasing
sequence numbers as association lists, and the shared `aplus` promises as a
heap (`List PromiseState`) indexed by allocation order, so that a promise's
status stays observable after the session drops its reference to it.
-/

namespace SpotifyWeb

/-! ## Identifier codec (`SpotifyUtil`) -/

/-- The base-62 digit alphabet, `base62` in the source. -/
def base62 : List Char :=
  "0123456789abcdefghijklmnopqrstuvwxyzABCDEFGHIJKLMNOPQRSTUVWXYZ".toList

/-- The lowercase hexadecimal alphabet used by Python's `hex`. -/
def hexAlphabet : List Char := "0123456789abcdef".toList

/-- Value of one hexadecimal character, as accepted by Python's `int(v, 16)`
(lowercase and uppercase; other characters never occur on valid input). -/
def hexDigitVal (c : Char) : Nat :=
  if '0' ≤ c ∧ c ≤ '9' then c.toNat - 48
  else if 'a' ≤ c ∧ c ≤ 'f' then c.toNat - 87
  else if 'A' ≤ c ∧ c ≤ 'F' then c.toNat - 55
  else 0

/-- `int(v, 16)` on a hex string. -/
def hexVal (h : List Char) : Nat :=
  h.foldl (fun v c => v * 16 + hexDigitVal c) 0

/-- `sys.maxint` of 64-bit CPython 2: values above it are `long`s, whose
`hex` rendering carries a trailing `L`. -/
def maxint : Nat := 2 ^ 63 - 1

/-- The `while v > 0: res = [v % b] + res; v /= b` digit-extraction loop of
`id2uri` (and of Python's `hex` rendering), with an explicit iteration bound
(`fuel`, never exhausted when `v ≤ fuel` and `2 ≤ b`) so that the recursion
is structural. -/
def toBaseAux (b : Nat) : Nat → Nat → List Nat
  | _, 0 => []
  | 0, _ + 1 => []
  | fuel + 1, v + 1 => toBaseAux b fuel ((v + 1) / b) ++ [(v + 1) % b]

/-- Big-endian base-`b` digits of `v` (the empty list for `v = 0`):
`toBase 62` is the `while v > 0` loop of `id2uri`, `toBase 16` the digit
sequence of Python's `hex`. -/
def toBase (b v : Nat) : List Nat := toBaseAux b v v

/-- Big-endian base-62 digits of `v`, as computed by the
`while v > 0` loop of `id2uri`. -/
def toBase62 (v : Nat) : List Nat := toBase 62 v

/-- Big-endian base-16 digits of `v`. -/
def toBase16 (v : Nat) : List Nat := toBase 16 v

/-- Python's `s.rjust(n, c)`. -/
def rjust (s : List Char) (n : Nat) (c : Char) : List Char :=
  List.replicate (n - s.length) c ++ s

/-- CPython 2 `hex(v)` on a 64-bit build: `0x` plus lowercase digits, plus a
trailing `L` when `v` exceeds `sys.maxint`. -/
def py2hex (v : Nat) : List Char :=
  "0x".toList
    ++ (if v = 0 then ['0'] else (toBase16 v).map (fun d => hexAlphabet.getD d ' '))
    ++ (if maxint < v then ['L'] else [])

/-- Python's `s[2:-1]` (for strings of length at least 2). -/
def sliceTwoToLast (s : List Char) : List Char := (s.drop 2).dropLast

/-- The 22-character, zero-padded base-62 id segment built by `id2uri`. -/
def id2uriIdPart (v : List Char) : List Char :=
  rjust ((toBase62 (hexVal v)).map (fun i => base62.getD i ' ')) 22 '0'

/-- `SpotifyUtil.id2uri(uritype, v)`: interpret `v` as hex, re-encode in
base 62, left-pad to 22 characters and prefix `spotify:uritype:`. -/
def id2uri (uritype : List Char) (v : List Char) : List Char :=
  "spotify:".toList ++ uritype ++ ':' :: id2uriIdPart v

/-- Python's `s.split(sep)` for a one-character separator. -/
def splitCh (sep : Char) : List Char → List (List Char)
  | [] => [[]]
  | c :: cs =>
    if c = sep then [] :: splitCh sep cs
    else
      match splitCh sep cs with
      | [] => [[c]]
      | p :: ps => (c :: p) :: ps

/-- Python's `base62.index(c)` (valid inputs only occur on base-62 chars). -/
def base62index (c : Char) : Nat := base62.indexOf c

/-- The base-62 decoding loop of `uri2id`: `v = v * 62 + base62.index(c)`. -/
def decode62 (s : List Char) : Nat :=
  s.foldl (fun v c => v * 62 + base62index c) 0

/-- `SpotifyUtil.uri2id(uri)`: pick the id segment of the colon-split URI,
decode it in base 62 and render it as `hex(v)[2:-1].rjust(32, "0")`. -/
def uri2id (uri : List Char) : List Char :=
  let parts := splitCh ':' uri
  let s :=
    if parts.length > 3 ∧ parts.getD 3 [] = "playlist".toList then parts.getD 4 []
    else parts.getD 2 []
  rjust (sliceTwoToLast (py2hex (decode62 s))) 32 '0'

/-! ## Availability resolver (`is_track_available`, `recurse_alternatives`) -/

/-- One `Restriction` proto message as read by `is_track_available`:
the `countries_allowed` field together with its `HasField` bit, the
`countries_forbidden` string, and the repeated `catalogue` field. -/
structure Restriction where
  countries_allowed : Option (List Char)
  countries_forbidden : Option (List Char)
  catalogue : List Nat
deriving DecidableEq

/-- A `Track` proto message: gid, restriction rules, and alternatives
(themselves tracks; only their own restrictions are consulted). -/
inductive Track where
  | mk (gid : List Char) (restriction : List Restriction) (alternative : List Track)

/-- The `restriction` field of a track. -/
def Track.restriction : Track → List Restriction
  | .mk _ r _ => r

/-- The `alternative` field of a track. -/
def Track.alternative : Track → List Track
  | .mk _ _ a => a

/-- The account types admitted by the `account_type_map` dict. -/
inductive AccountType where
  | premium
  | unlimited
  | free
deriving DecidableEq

/-- `account_type_map = {"premium": 1, "unlimited": 1, "free": 0}`. -/
def account_type_map : AccountType → Nat
  | .premium => 1
  | .unlimited => 1
  | .free => 0

/-- `[s[i:i+2] for i in range(0, len(s), 2)]`: split a country string into
two-character codes. -/
def chunk2 : List Char → List (List Char)
  | [] => []
  | [c] => [[c]]
  | a :: b :: rest => [a, b] :: chunk2 rest

/-- The evaluation of one restriction rule inside the loop body of
`is_track_available`, given the `allowed_countries` / `forbidden_countries`
lists accumulated so far (this rule's own chunks already appended) and with
`selfCountry` standing for `self.country`: computes the iteration's
`available` flag. Note that `forbidden` tests `self.country`, not the
queried `country`. -/
def ruleEval (selfCountry country : List Char) (acct : AccountType)
    (r : Restriction) (allowed_countries forbidden_countries : List (List Char)) : Bool :=
  let allowed : Bool :=
    !r.countries_allowed.isSome || decide (country ∈ allowed_countries)
  let forbidden : Bool :=
    decide (selfCountry ∈ forbidden_countries) && decide (forbidden_countries.length > 0)
  let override : Bool :=
    decide (country ∈ allowed_countries) && decide (country ∈ forbidden_countries)
  let allowed := if override then true else allowed
  let forbidden := if override then false else forbidden
  let applicable : Bool := decide (account_type_map acct ∈ r.catalogue)
  allowed && !forbidden && applicable

/-- The `for restriction in track.restriction` loop of `is_track_available`,
with the `allowed_countries` / `forbidden_countries` accumulators threaded
through (`+=` in the source). Returns the final `available` flag: the loop
breaks at the first available rule and otherwise falls through with
`available = False`. -/
def availLoop (selfCountry country : List Char) (acct : AccountType) :
    List Restriction → List (List Char) → List (List Char) → Bool
  | [], _, _ => false
  | r :: rs, accA, accF =>
    let allowed_countries := accA ++ chunk2 (r.countries_allowed.getD [])
    let forbidden_countries := accF ++ chunk2 (r.countries_forbidden.getD [])
    let available := ruleEval selfCountry country acct r allowed_countries forbidden_countries
    if available then true else availLoop selfCountry country acct rs allowed_countries forbidden_countries

/-- `SpotifyAPI.is_track_available(track, country)`, with `selfCountry` the
session's `self.country` and `acct` the session's `self.account_type`. -/
def is_track_available (selfCountry : List Char) (acct : AccountType)
    (track : Track) (country : List Char) : Bool :=
  availLoop selfCountry country acct track.restriction [] []

/-- `SpotifyAPI.recurse_alternatives(track, country)` (with the country
argument made explicit): the primary if it is available, else the first
available alternative, else the `False` sentinel (modelled as `none`). -/
def recurse_alternatives (selfCountry : List Char) (acct : AccountType)
    (track : Track) (country : List Char) : Option Track :=
  if is_track_available selfCountry acct track country then some track
  else track.alternative.find? (fun alt => is_track_available selfCountry acct alt country)

/-! ## Session state, promises, dispatcher (`SpotifyAPI`) -/

/-- The error taxonomy of the module: `SpotifyDisconnectedError`,
`SpotifyCommandError(major, minor, msg)` (msg derived from the fixed lookup
tables, not modelled), `SpotifyTimeoutError`, and the generic exceptions a
promise wait can surface (`genericError`, identified by an opaque code). -/
inductive SpError where
  | disconnectedError
  | commandError (major minor : Int)
  | timeoutError
  | genericError (code : Nat)
deriving DecidableEq

/-- Status of an `aplus` promise: single-assignment pending/fulfilled/rejected
cell. Results are opaque (`Nat`). -/
inductive PromiseState where
  | pending
  | fulfilled (v : Nat)
  | rejected (e : SpError)
deriving DecidableEq

/-- The lifecycle states `INIT .. DISCONNECTED` of `SpotifyAPI`. -/
inductive SpState where
  | INIT
  | CONNECTING
  | CONNECTED
  | DISCONNECTING
  | DISCONNECTED
deriving DecidableEq

/-- The session fields touched by `connect` / `disconnect` / `send_command`:
lifecycle state, the websocket handle (`ws`, identified by an opaque `Nat`),
the sequence counter `seq`, the pending-command table `cmd_promises`
(sequence number to promise heap index), the cached `settings`, and the
promise heap itself (statuses by allocation order), which keeps every
allocated promise observable even after the table drops it. -/
structure Session where
  state : SpState
  ws : Option Nat
  seq : Nat
  cmd_promises : List (Nat × Nat)
  settings : Option Nat
  heap : List PromiseState
deriving DecidableEq

/-- `SpotifyAPI.disconnect(clear_settings, original_ws)`: the guard chain of
early returns, then close the transport, reset `seq` and `cmd_promises`
(without touching the promises' statuses), clear settings when requested or
when the disconnect interrupted `CONNECTING`, and end in `DISCONNECTED`. -/
def disconnect (s : Session) (clear_settings : Bool) (original_ws : Option Nat) : Session :=
  if s.state = .INIT ∨ s.ws = none then s
  else if s.state = .DISCONNECTING ∨ s.state = .DISCONNECTED then s
  else if original_ws.isSome ∧ s.ws ≠ original_ws then s
  else
    let clear := clear_settings || s.state = .CONNECTING
    { s with
      state := .DISCONNECTED
      ws := none
      seq := 0
      cmd_promises := []
      settings := if clear then none else s.settings }

/-- `SpotifyAPI.connect(username, password)`: the initial state gate under the
lock. The remainder (auth, opening the transport, waiting on the logged-in
marker) involves the network and threads and is abstracted as the
continuation `rest`, which reports the boolean result, the new session, and
how many transports it opened. The gate branches return without invoking it
and open no transport. -/
def connect (s : Session) (rest : Session → Bool × Session × Nat) : Bool × Session × Nat :=
  if s.state = .CONNECTED ∨ s.state = .CONNECTING then (true, s, 0)
  else if s.state = .DISCONNECTING then (false, s, 0)
  else rest { s with state := .CONNECTING }

/-- `SpotifyAPI.send_command(name, args)` with the message payload abstracted
away and `ws_send_fails` telling whether `self.ws.send` raises
`SSLError`/`StreamClosed`. A fresh pending promise is allocated first
(`promise = Promise()`); with no live transport or a `DISCONNECTED` state the
call returns a *new* promise built by `Promise.rejected(...)`; otherwise the
pending promise is registered under `pid = self.seq`, `seq` is incremented
and the frame is written. When the write raises, the handler calls
`promise.rejected(err)` — the static constructor — which allocates yet
another, immediately discarded, rejected promise and leaves the returned one
untouched. Returns the heap index of the returned promise. -/
def send_command (s : Session) (ws_send_fails : Bool) : Nat × Session :=
  let promiseIdx := s.heap.length
  let heap1 := s.heap ++ [PromiseState.pending]
  if s.ws = none ∨ s.state = .DISCONNECTED then
    (heap1.length, { s with heap := heap1 ++ [PromiseState.rejected .disconnectedError] })
  else
    let pid := s.seq
    let s2 : Session :=
      { s with
        heap := heap1
        cmd_promises := s.cmd_promises ++ [(pid, promiseIdx)]
        seq := s.seq + 1 }
    if ws_send_fails then
      (promiseIdx, { s2 with heap := s2.heap ++ [PromiseState.rejected .disconnectedError] })
    else
      (promiseIdx, s2)

/-! ## Synchronous call contract (`wrap_request`, no callback) -/

/-- What one attempt of the synchronous loop observes from
`promise.get(timeout)`: the fulfilled value, or the raised error. -/
inductive AttemptOutcome where
  | success (v : Nat)
  | failure (e : SpError)
deriving DecidableEq

/-- The `for attempt in range(0, retries)` loop of the synchronous branch of
`wrap_request`, driven by the outcome of each attempt. On success the value
is returned; `SpotifyDisconnectedError` and `SpotifyCommandError` are
re-raised at once; any other exception is stored in `last_exception` and the
send is retried. When the budget is exhausted the code runs
`raise last_exception or SpotifyTimeoutError()`. Also counts the sends. -/
def wrapLoop (outcomes : Nat → AttemptOutcome) :
    Nat → Nat → Option SpError → Nat → Except SpError Nat × Nat
  | _, 0, last, sends => (.error (last.getD .timeoutError), sends)
  | attempt, fuel + 1, last, sends =>
    match outcomes attempt with
    | .success v => (.ok v, sends + 1)
    | .failure .disconnectedError => (.error .disconnectedError, sends + 1)
    | .failure (.commandError a b) => (.error (.commandError a b), sends + 1)
    | .failure .timeoutError => wrapLoop outcomes (attempt + 1) fuel (some .timeoutError) (sends + 1)
    | .failure (.genericError n) => wrapLoop outcomes (attempt + 1) fuel (some (.genericError n)) (sends + 1)

/-- `SpotifyAPI.wrap_request(command, args)` with no callback: the
synchronous retry loop, returning the raised/returned result and the number
of send attempts. -/
def wrap_request_sync (retries : Nat) (outcomes : Nat → AttemptOutcome) :
    Except SpError Nat × Nat :=
  wrapLoop outcomes 0 retries none 0

/-! ## Spec-side model and concrete inputs used by the claims -/

/-- Modelled from the spec's words (for comparison with the code): the
per-rule evaluation C5 describes — `allowed` and `forbidden` computed from
this rule's own lists alone, both against the queried region. -/
def ruleSpecEval (acct : AccountType) (country : List Char) (r : Restriction) : Bool :=
  let allowedList := chunk2 (r.countries_allowed.getD [])
  let forbiddenList := chunk2 (r.countries_forbidden.getD [])
  let allowed : Bool := !r.countries_allowed.isSome || decide (country ∈ allowedList)
  let forbidden : Bool := decide (country ∈ forbiddenList) && decide (forbiddenList.length > 0)
  let override : Bool := decide (country ∈ allowedList) && decide (country ∈ forbiddenList)
  let allowed := if override then true else allowed
  let forbidden := if override then false else forbidden
  allowed && !forbidden && decide (account_type_map acct ∈ r.catalogue)

/-- The `allowed_countries` accumulator after chunking the rules `rs`. -/
def allowedAcc (rs : List Restriction) : List (List Char) :=
  (rs.map (fun r => chunk2 (r.countries_allowed.getD []))).flatten

/-- The `forbidden_countries` accumulator after chunking the rules `rs`. -/
def forbiddenAcc (rs : List Restriction) : List (List Char) :=
  (rs.map (fun r => chunk2 (r.countries_forbidden.getD []))).flatten

/-- A connected session with two pending commands (heap indices 0 and 1). -/
def sessTwoPending : Session :=
  { state := .CONNECTED, ws := some 0, seq := 2,
    cmd_promises := [(0, 0), (1, 1)], settings := some 0,
    heap := [.pending, .pending] }

/-- A connected, idle session with a live transport. -/
def sessConnected : Session :=
  { state := .CONNECTED, ws := some 0, seq := 5,
    cmd_promises := [], settings := some 0, heap := [] }

/-- A session in the middle of `disconnect`. -/
def sessDisconnecting : Session :=
  { state := .DISCONNECTING, ws := some 0, seq := 0,
    cmd_promises := [], settings := some 0, heap := [] }

/-- A torn-down session. -/
def sessDisconnected : Session :=
  { state := .DISCONNECTED, ws := none, seq := 0,
    cmd_promises := [], settings := none, heap := [] }

/-- The track of C5's counterexample: a single restriction rule with no
allow-list, forbid-list `"DE"`, catalogue `[1]`. -/
def trackC5 : Track := .mk [] [⟨none, some "DE".toList, [1]⟩] []

/-- The track of C7's witness: a primary with no restriction rules (hence
unavailable) and one equally unavailable alternative. -/
def trackC7 : Track := .mk [] [] [.mk [] [] []]

/-! ## Base-conversion lemmas -/

/-- Decoding a big-endian digit list in base `b` (the accumulator loop
`v = v * b + digit`). -/
def decodeDigits (b : Nat) (ds : List Nat) : Nat :=
  ds.foldl (fun a d => a * b + d) 0

/-- The iteration bound of `toBaseAux` is irrelevant once it dominates the
value. -/
theorem toBaseAux_fuel (b : Nat) (hb : 2 ≤ b) :
    ∀ (f₁ f₂ v : Nat), v ≤ f₁ → v ≤ f₂ → toBaseAux b f₁ v = toBaseAux b f₂ v := by
  intro f₁
  induction f₁ with
  | zero =>
    intro f₂ v h1 h2
    have hv : v = 0 := Nat.le_zero.mp h1
    subst hv
    cases f₂ <;> rfl
  | succ f ih =>
    intro f₂ v h1 h2
    cases v with
    | zero => cases f₂ <;> rfl
    | succ w =>
      cases f₂ with
      | zero => omega
      | succ g =>
        show toBaseAux b f ((w + 1) / b) ++ [(w + 1) % b] =
          toBaseAux b g ((w + 1) / b) ++ [(w + 1) % b]
        have hd : (w + 1) / b ≤ w := by
          have := Nat.div_lt_self (show 0 < w + 1 by omega) hb
          omega
        rw [ih g ((w + 1) / b) (by omega) (by omega)]

/-- The defining recurrence of `toBase`. -/
theorem toBase_eq (b : Nat) (hb : 2 ≤ b) (v : Nat) :
    toBase b v = if v = 0 then [] else toBase b (v / b) ++ [v % b] := by
  cases v with
  | zero => rfl
  | succ w =>
    have hd : (w + 1) / b ≤ w := by
      have := Nat.div_lt_self (show 0 < w + 1 by omega) hb
      omega
    rw [if_neg (Nat.succ_ne_zero w)]
    show toBaseAux b w ((w + 1) / b) ++ [(w + 1) % b] =
      toBaseAux b ((w + 1) / b) ((w + 1) / b) ++ [(w + 1) % b]
    rw [toBaseAux_fuel b hb w ((w + 1) / b) ((w + 1) / b) hd (le_refl _)]

/-- Decoding inverts digit extraction. -/
theorem decodeDigits_toBase (b : Nat) (hb : 2 ≤ b) (v : Nat) :
    decodeDigits b (toBase b v) = v := by
  induction v using Nat.strong_induction_on with
  | _ v ih =>
    rw [toBase_eq b hb v]
    by_cases h : v = 0
    · subst h; rfl
    · rw [if_neg h]
      have hlt : v / b < v := Nat.div_lt_self (Nat.pos_of_ne_zero h) hb
      have hrec := ih (v / b) hlt
      unfold decodeDigits at hrec ⊢
      rw [List.foldl_append, hrec]
      show v / b * b + v % b = v
      rw [Nat.mul_comm]
      exact Nat.div_add_mod v b

/-- Every extracted digit is below the base. -/
theorem toBase_digits_lt (b : Nat) (hb : 2 ≤ b) (v : Nat) :
    ∀ d ∈ toBase b v, d < b := by
  induction v using Nat.strong_induction_on with
  | _ v ih =>
    rw [toBase_eq b hb v]
    by_cases h : v = 0
    · simp [h]
    · rw [if_neg h]
      intro d hd
      rcases List.mem_append.mp hd with h1 | h1
      · exact ih (v / b) (Nat.div_lt_self (Nat.pos_of_ne_zero h) hb) d h1
      · have : d = v % b := by simpa using h1
        subst this
        exact Nat.mod_lt v (by omega)

/-- At most `k` digits are extracted from a value below `b ^ k`. -/
theorem toBase_length_le (b : Nat) (hb : 2 ≤ b) :
    ∀ (k v : Nat), v < b ^ k → (toBase b v).length ≤ k := by
  intro k
  induction k with
  | zero =>
    intro v hv
    have hv0 : v = 0 := by simpa using Nat.lt_one_iff.mp (by simpa using hv)
    subst hv0
    simp [toBase, toBaseAux]
  | succ j ihj =>
    intro v hv
    rw [toBase_eq b hb v]
    by_cases h : v = 0
    · simp [h]
    · rw [if_neg h, List.length_append]
      have hdiv : v / b < b ^ j := by
        rw [Nat.div_lt_iff_lt_mul (by omega : 0 < b)]
        calc v < b ^ (j + 1) := hv
          _ = b ^ j * b := by ring
      have := ihj (v / b) hdiv
      simp only [List.length_cons, List.length_nil]
      omega

/-- The decoding accumulator never decreases. -/
theorem foldl_base_le (b : Nat) (hb : 1 ≤ b) :
    ∀ (t : List Nat) (a : Nat), a ≤ t.foldl (fun v d => v * b + d) a := by
  intro t
  induction t with
  | nil => intro a; exact le_refl a
  | cons d t iht =>
    intro a
    refine le_trans ?_ (iht (a * b + d))
    have : a * 1 ≤ a * b := Nat.mul_le_mul_left a hb
    omega

/-- A digit list with a nonzero leading digit decodes to a positive value. -/
theorem decodeDigits_pos (b : Nat) (hb : 2 ≤ b) (ds : List Nat) (i : Nat)
    (hh : ds.head? = some i) (hi : i ≠ 0) : 0 < decodeDigits b ds := by
  cases ds with
  | nil => simp at hh
  | cons d t =>
    have hd : d = i := by simpa using hh
    subst hd
    unfold decodeDigits
    rw [List.foldl_cons]
    have hle := foldl_base_le b (by omega) t (0 * b + d)
    simp only [Nat.zero_mul, Nat.zero_add] at hle ⊢
    omega

/-- Digit extraction inverts decoding on canonical digit lists (digits below
the base, no leading zero). -/
theorem toBase_decodeDigits (b : Nat) (hb : 2 ≤ b) :
    ∀ (ds : List Nat), (∀ d ∈ ds, d < b) → ds.head? ≠ some 0 →
      toBase b (decodeDigits b ds) = ds := by
  intro ds
  induction ds using List.reverseRecOn with
  | nil => intro _ _; rfl
  | append_singleton init d ih =>
    intro hlt hh
    have hdb : d < b := hlt d (by simp)
    have hdec : decodeDigits b (init ++ [d]) = decodeDigits b init * b + d := by
      unfold decodeDigits
      rw [List.foldl_append]
      rfl
    rw [hdec]
    cases init with
    | nil =>
      have hd0 : d ≠ 0 := by simpa using hh
      have hD : decodeDigits b [] = 0 := rfl
      rw [hD]
      simp only [Nat.zero_mul, Nat.zero_add]
      rw [toBase_eq b hb, if_neg hd0, Nat.div_eq_of_lt hdb, Nat.mod_eq_of_lt hdb]
      rfl
    | cons i t =>
      have hi : i ≠ 0 := by simpa using hh
      have hD : 0 < decodeDigits b (i :: t) :=
        decodeDigits_pos b hb (i :: t) i (by simp) hi
      have hne : decodeDigits b (i :: t) * b + d ≠ 0 := by
        have : 0 < decodeDigits b (i :: t) * b := Nat.mul_pos hD (by omega)
        omega
      rw [toBase_eq b hb, if_neg hne]
      have hdiv : (decodeDigits b (i :: t) * b + d) / b = decodeDigits b (i :: t) := by
        rw [Nat.add_comm, Nat.add_mul_div_right d (decodeDigits b (i :: t)) (by omega : 0 < b),
          Nat.div_eq_of_lt hdb, Nat.zero_add]
      have hmod : (decodeDigits b (i :: t) * b + d) % b = d := by
        rw [Nat.mul_add_mod', Nat.mod_eq_of_lt hdb]
      rw [hdiv, hmod,
        ih (fun x hx => hlt x (List.mem_append_left _ hx)) (by simpa using hi)]

/-- A digit list decoding to zero is all zeros. -/
theorem decodeDigits_eq_zero (b : Nat) (hb : 2 ≤ b) :
    ∀ (ds : List Nat), decodeDigits b ds = 0 → ∀ d ∈ ds, d = 0 := by
  intro ds
  induction ds with
  | nil => simp
  | cons x t iht =>
    intro h0 d hd
    unfold decodeDigits at h0
    rw [List.foldl_cons] at h0
    simp only [Nat.zero_mul, Nat.zero_add] at h0
    have hle := foldl_base_le b (by omega) t x
    rw [h0] at hle
    have hx : x = 0 := by omega
    rcases List.mem_cons.mp hd with h1 | h1
    · omega
    · subst hx
      exact iht h0 d h1

/-! ## Alphabet facts (checked by evaluation over the fixed alphabets) -/

/-- `base62.index` inverts indexing for digits below 62. -/
theorem base62_index_getD : ∀ d < 62, base62index (base62.getD d ' ') = d := by decide

/-- Digits below 62 map into the base-62 alphabet. -/
theorem base62_getD_mem : ∀ d < 62, base62.getD d ' ' ∈ base62 := by decide

/-- No base-62 alphabet character is a colon. -/
theorem base62_mem_ne_colon : ∀ c ∈ base62, c ≠ ':' := by decide

/-- Digit values below 16 map through the hex alphabet and back. -/
theorem hex_getD_val : ∀ d < 16, hexDigitVal (hexAlphabet.getD d ' ') = d := by decide

/-- Hex characters have digit values below 16. -/
theorem hex_val_lt : ∀ c ∈ hexAlphabet, hexDigitVal c < 16 := by decide

/-- Mapping a hex character to its value and back is the identity. -/
theorem hex_val_getD : ∀ c ∈ hexAlphabet, hexAlphabet.getD (hexDigitVal c) ' ' = c := by
  decide

/-- The only hex character of value zero is `'0'`. -/
theorem hex_val_zero_iff : ∀ c ∈ hexAlphabet, (hexDigitVal c = 0 ↔ c = '0') := by decide

/-! ## Decoding lemmas on character lists -/

/-- `decode62` is base-62 decoding of the character indices. -/
theorem decode62_eq_decode (s : List Char) :
    decode62 s = decodeDigits 62 (s.map base62index) := by
  unfold decode62 decodeDigits
  rw [List.foldl_map]

/-- `hexVal` is base-16 decoding of the character values. -/
theorem hexVal_eq_decode (s : List Char) :
    hexVal s = decodeDigits 16 (s.map hexDigitVal) := by
  unfold hexVal decodeDigits
  rw [List.foldl_map]

/-- Indexing then re-indexing a digit list below 62 is the identity. -/
theorem map_index_getD (ds : List Nat) (hds : ∀ d ∈ ds, d < 62) :
    (ds.map (fun i => base62.getD i ' ')).map base62index = ds := by
  rw [List.map_map]
  have hcongr : ∀ d ∈ ds, (base62index ∘ fun i => base62.getD i ' ') d = id d := by
    intro d hd
    simp only [Function.comp_apply, id_eq]
    exact base62_index_getD d (hds d hd)
  rw [List.map_congr_left hcongr, List.map_id]

/-- Leading `'0'`-padding does not change a base-62 decode. -/
theorem decode62_replicate_zero (k : Nat) (s : List Char) :
    decode62 (List.replicate k '0' ++ s) = decode62 s := by
  induction k with
  | zero => rfl
  | succ j ihj =>
    rw [List.replicate_succ, List.cons_append]
    unfold decode62 at ihj ⊢
    rw [List.foldl_cons]
    have h0 : 0 * 62 + base62index '0' = 0 := by decide
    rw [h0]
    exact ihj

/-- Leading `'0'`-padding does not change a hex decode. -/
theorem hexVal_replicate_zero (k : Nat) (s : List Char) :
    hexVal (List.replicate k '0' ++ s) = hexVal s := by
  induction k with
  | zero => rfl
  | succ j ihj =>
    rw [List.replicate_succ, List.cons_append]
    unfold hexVal at ihj ⊢
    rw [List.foldl_cons]
    have h0 : 0 * 16 + hexDigitVal '0' = 0 := by decide
    rw [h0]
    exact ihj

/-- The first element surviving a `dropWhile` falsifies the predicate. -/
theorem dropWhile_head_not (p : Char → Bool) :
    ∀ (l : List Char) (a : Char), (l.dropWhile p).head? = some a → p a = false := by
  intro l
  induction l with
  | nil => intro a h; simp at h
  | cons c t iht =>
    intro a h
    rw [List.dropWhile_cons] at h
    by_cases hc : p c
    · rw [if_pos hc] at h
      exact iht a h
    · rw [if_neg hc] at h
      have hca : c = a := by simpa using h
      subst hca
      simpa using hc

/-- Decoding from accumulator `a` stays below `(a + 1) * b ^ length`. -/
theorem foldl_base_lt (b : Nat) (hb : 2 ≤ b) :
    ∀ (ds : List Nat) (a : Nat), (∀ d ∈ ds, d < b) →
      List.foldl (fun v d => v * b + d) a ds < (a + 1) * b ^ ds.length := by
  intro ds
  induction ds with
  | nil =>
    intro a _
    simpa using Nat.lt_succ_self a
  | cons d t iht =>
    intro a hds
    rw [List.foldl_cons]
    have hd : d < b := hds d (by simp)
    have hrec := iht (a * b + d) (fun x hx => hds x (by simp [hx]))
    calc List.foldl (fun v d => v * b + d) (a * b + d) t
        < (a * b + d + 1) * b ^ t.length := hrec
      _ ≤ ((a + 1) * b) * b ^ t.length := by
          have h1 : a * b + (d + 1) ≤ a * b + b := Nat.add_le_add_left (by omega) _
          have h2 : a * b + d + 1 ≤ (a + 1) * b := by
            calc a * b + d + 1 = a * b + (d + 1) := by ring
              _ ≤ a * b + b := h1
              _ = (a + 1) * b := by ring
          exact Nat.mul_le_mul_right _ h2
      _ = (a + 1) * b ^ (d :: t).length := by
          rw [List.length_cons]
          ring

/-- A digit list below its base decodes below `b ^ length`. -/
theorem decodeDigits_lt (b : Nat) (hb : 2 ≤ b) (ds : List Nat)
    (hds : ∀ d ∈ ds, d < b) : decodeDigits b ds < b ^ ds.length := by
  have := foldl_base_lt b hb ds 0 hds
  simpa [decodeDigits] using this

/-- The hex value of a string over the hex alphabet is below `16 ^ length`. -/
theorem hexVal_bound (s : List Char) (hs : ∀ c ∈ s, c ∈ hexAlphabet) :
    hexVal s < 16 ^ s.length := by
  rw [hexVal_eq_decode]
  have := decodeDigits_lt 16 (by norm_num) (s.map hexDigitVal)
    (by
      intro d hd
      rcases List.mem_map.mp hd with ⟨c, hc, rfl⟩
      exact hex_val_lt c (hs c hc))
  simpa using this

/-! ## Facts about the id segment of `id2uri` -/

/-- Every character of the id segment lies in the base-62 alphabet. -/
theorem id2uriIdPart_mem (v : List Char) : ∀ c ∈ id2uriIdPart v, c ∈ base62 := by
  intro c hc
  unfold id2uriIdPart rjust at hc
  rcases List.mem_append.mp hc with h | h
  · have hc0 : c = '0' := List.eq_of_mem_replicate h
    subst hc0
    decide
  · rcases List.mem_map.mp h with ⟨d, hd, rfl⟩
    exact base62_getD_mem d (toBase_digits_lt 62 (by norm_num) (hexVal v) d hd)

/-- The id segment never contains a colon. -/
theorem id2uriIdPart_ne_colon (v : List Char) : ':' ∉ id2uriIdPart v := fun h =>
  base62_mem_ne_colon ':' (id2uriIdPart_mem v ':' h) rfl

/-- For a 32-character input over the hex alphabet the id segment has
exactly 22 characters. -/
theorem id2uriIdPart_length (h : List Char) (hlen : h.length = 32)
    (hhex : ∀ c ∈ h, c ∈ hexAlphabet) : (id2uriIdPart h).length = 22 := by
  have hv : hexVal h < 16 ^ 32 := by
    have := hexVal_bound h hhex
    rwa [hlen] at this
  have h62 : hexVal h < 62 ^ 22 := lt_of_lt_of_le hv (by norm_num)
  have hL : (toBase 62 (hexVal h)).length ≤ 22 :=
    toBase_length_le 62 (by norm_num) 22 (hexVal h) h62
  unfold id2uriIdPart rjust
  rw [List.length_append, List.length_replicate, List.length_map]
  have hL2 : (toBase62 (hexVal h)).length ≤ 22 := hL
  omega

/-- The decode of the id segment recovers the hex value. -/
theorem decode62_id2uriIdPart (h : List Char) :
    decode62 (id2uriIdPart h) = hexVal h := by
  unfold id2uriIdPart rjust toBase62
  rw [decode62_replicate_zero, decode62_eq_decode,
    map_index_getD _ (toBase_digits_lt 62 (by norm_num) (hexVal h)),
    decodeDigits_toBase 62 (by norm_num)]

/-! ## Splitting lemmas -/

/-- A separator-free string splits into itself. -/
theorem splitCh_not_mem (sep : Char) :
    ∀ (s : List Char), sep ∉ s → splitCh sep s = [s]
  | [], _ => rfl
  | c :: cs, h => by
    have hc : ¬(c = sep) := fun e => h (by simp [e])
    have hcs : sep ∉ cs := fun hm => h (by simp [hm])
    rw [splitCh, if_neg hc, splitCh_not_mem sep cs hcs]

/-- Splitting after a separator-free head segment. -/
theorem splitCh_append (sep : Char) :
    ∀ (a : List Char), sep ∉ a → ∀ (r : List Char),
      splitCh sep (a ++ sep :: r) = a :: splitCh sep r
  | [], _, r => by
    rw [List.nil_append, splitCh, if_pos rfl]
  | c :: cs, ha, r => by
    have hc : ¬(c = sep) := fun e => ha (by simp [e])
    have hcs : sep ∉ cs := fun hm => ha (by simp [hm])
    rw [List.cons_append, splitCh, if_neg hc, splitCh_append sep cs hcs r]

/-- Auxiliary: reading just past the end of `l` in `l ++ [a, b]` gives `b`. -/
theorem getD_append_pair (l : List PromiseState) (a b d : PromiseState) :
    (l ++ [a, b]).getD (l.length + 1) d = b := by
  induction l with
  | nil => rfl
  | cons x xs ih => simpa [List.getD_cons_succ] using ih

/-! ## Claims C1, C3, C9, C10: session lifecycle and dispatcher -/

/-- Claim C1, counterexample: on a connected session with two pending
commands, `disconnect` empties the pending table but rejects neither future
with `SpotifyDisconnectedError` — both stay `pending` in the heap, so the
claimed rejection does not happen. -/
theorem c1_disconnect_counterexample :
    (disconnect sessTwoPending false none).cmd_promises = [] ∧
    (disconnect sessTwoPending false none).heap.getD 0 .pending = .pending ∧
    (disconnect sessTwoPending false none).heap.getD 1 .pending = .pending ∧
    PromiseState.pending ≠ PromiseState.rejected .disconnectedError := by
  decide

/-- Claim C1, amended: on a session with a live transport in state
`CONNECTED`, `disconnect` leaves the pending-command table empty, but the
pending futures are not rejected — the promise heap is completely untouched,
so every pending future is abandoned still pending. -/
theorem c1_disconnect_abandons_pending (s : Session) (cs : Bool)
    (hst : s.state = .CONNECTED) (hws : s.ws ≠ none) :
    (disconnect s cs none).cmd_promises = [] ∧ (disconnect s cs none).heap = s.heap := by
  simp [disconnect, hst, hws]

/-- Witness for `c1_disconnect_abandons_pending` at a concrete session. -/
theorem c1_disconnect_abandons_pending_witness :
    (disconnect sessTwoPending true none).cmd_promises = [] ∧
    (disconnect sessTwoPending true none).heap = sessTwoPending.heap :=
  c1_disconnect_abandons_pending sessTwoPending true rfl (by decide)

/-- Claim C3: a write failure (`SSLError`/`StreamClosed` from `ws.send`) is
meant to reject the returned future, but the handler calls
`promise.rejected(...)` — the static constructor — so a discarded rejected
promise is allocated (heap index 1) while the returned future (heap index 0)
stays `pending` forever. Evaluates the code at the failing input. -/
theorem c3_write_failure_leaves_future_pending :
    (send_command sessConnected true).1 = 0 ∧
    (send_command sessConnected true).2.heap =
      [.pending, .rejected .disconnectedError] ∧
    (send_command sessConnected true).2.heap.getD
      (send_command sessConnected true).1 .pending = .pending := by
  decide

/-- Claim C9: `connect` on a session already `CONNECTED` or `CONNECTING`
returns success immediately — the continuation (auth, transport open) never
runs, no transport is opened, the session is unchanged; on a session in
`DISCONNECTING` it fails immediately, likewise without side effects. -/
theorem c9_connect_gate (s : Session) (rest : Session → Bool × Session × Nat) :
    ((s.state = .CONNECTED ∨ s.state = .CONNECTING) →
      connect s rest = (true, s, 0)) ∧
    (s.state = .DISCONNECTING → connect s rest = (false, s, 0)) := by
  constructor
  · intro h
    simp [connect, h]
  · intro h
    simp [connect, h]

/-- Witness for `c9_connect_gate`: a connected session and a disconnecting
session, against a continuation that would open a transport. -/
theorem c9_connect_gate_witness :
    connect sessConnected (fun s => (false, s, 1)) = (true, sessConnected, 0) ∧
    connect sessDisconnecting (fun s => (false, s, 1)) = (false, sessDisconnecting, 0) :=
  ⟨(c9_connect_gate sessConnected _).1 (Or.inl rfl),
   (c9_connect_gate sessDisconnecting _).2 rfl⟩

/-- Claim C10: `send_command` on a session with no live transport or in state
`DISCONNECTED` returns an already-rejected future carrying
`SpotifyDisconnectedError`, consumes no sequence number and registers no
pending entry. -/
theorem c10_send_command_when_disconnected (s : Session) (fails : Bool)
    (h : s.ws = none ∨ s.state = .DISCONNECTED) :
    (send_command s fails).2.heap.getD (send_command s fails).1 .pending =
      .rejected .disconnectedError ∧
    (send_command s fails).2.seq = s.seq ∧
    (send_command s fails).2.cmd_promises = s.cmd_promises := by
  have key : (s.heap ++ [PromiseState.pending, PromiseState.rejected .disconnectedError]).getD
      (s.heap.length + 1) .pending = .rejected .disconnectedError :=
    getD_append_pair _ _ _ _
  refine ⟨?_, ?_, ?_⟩
  · simpa [send_command, if_pos h, List.append_assoc] using key
  · simp [send_command, if_pos h]
  · simp [send_command, if_pos h]

/-- Witness for `c10_send_command_when_disconnected` on a torn-down session. -/
theorem c10_send_command_when_disconnected_witness :
    (send_command sessDisconnected true).2.heap.getD
      (send_command sessDisconnected true).1 .pending =
      .rejected .disconnectedError ∧
    (send_command sessDisconnected true).2.seq = sessDisconnected.seq ∧
    (send_command sessDisconnected true).2.cmd_promises = sessDisconnected.cmd_promises :=
  c10_send_command_when_disconnected sessDisconnected true (Or.inl rfl)

/-! ## Claims C2, C6: synchronous retry policy -/

/-- Claim C2, counterexample: with `retries = 3` and every attempt failing
with the same generic error, the loop makes 3 sends but then re-raises that
generic error (`raise last_exception or SpotifyTimeoutError()` prefers
`last_exception`), not `SpotifyTimeoutError`. -/
theorem c2_retry_counterexample :
    wrap_request_sync 3 (fun _ => .failure (.genericError 7)) =
      (.error (.genericError 7), 3) ∧
    SpError.genericError 7 ≠ SpError.timeoutError :=
  ⟨rfl, by decide⟩

/-- Claim C2, amended: a synchronous call with `retries = 3` whose every
attempt fails with a generic error makes exactly 3 sends and then re-raises
the last attempt's generic error; `SpotifyTimeoutError` would be raised only
if no exception had been captured, which cannot happen here. -/
theorem c2_retry_boundary (f : Nat → Nat) :
    wrap_request_sync 3 (fun i => .failure (.genericError (f i))) =
      (.error (.genericError (f 2)), 3) :=
  rfl

/-- Claim C6: a synchronous call whose first attempt fails with
`SpotifyDisconnectedError` or a classified `SpotifyCommandError` re-raises it
immediately after a single send, whatever the retry budget. -/
theorem c6_classified_errors_not_retried (retries : Nat)
    (outcomes : Nat → AttemptOutcome) (h : 1 ≤ retries) :
    (outcomes 0 = .failure .disconnectedError →
      wrap_request_sync retries outcomes = (.error .disconnectedError, 1)) ∧
    (∀ a b : Int, outcomes 0 = .failure (.commandError a b) →
      wrap_request_sync retries outcomes = (.error (.commandError a b), 1)) := by
  obtain ⟨n, rfl⟩ : ∃ n, retries = n + 1 :=
    ⟨retries - 1, (Nat.succ_pred_eq_of_pos h).symm⟩
  constructor
  · intro h0
    simp [wrap_request_sync, wrapLoop, h0]
  · intro a b h0
    simp [wrap_request_sync, wrapLoop, h0]

/-- Witness for `c6_classified_errors_not_retried` with `retries = 3`. -/
theorem c6_classified_errors_not_retried_witness :
    wrap_request_sync 3 (fun _ => .failure .disconnectedError) =
      (.error .disconnectedError, 1) ∧
    wrap_request_sync 3 (fun _ => .failure (.commandError 12 1)) =
      (.error (.commandError 12 1), 1) :=
  ⟨(c6_classified_errors_not_retried 3 _ (by decide)).1 rfl,
   (c6_classified_errors_not_retried 3 _ (by decide)).2 12 1 rfl⟩

/-! ## Claims C4, C8: identifier codec -/

/-- Claim C4, counterexample: the valid 32-character hex identifier with
value 1 does not survive the round trip — the value fits a plain Python 2
`int`, so `hex(v)` has no trailing `L` and the `[2:-1]` slice of `uri2id`
drops the final hex digit, turning `00…01` into `00…00`. -/
theorem c4_round_trip_counterexample :
    (List.replicate 31 '0' ++ ['1']).length = 32 ∧
    (∀ c ∈ List.replicate 31 '0' ++ ['1'], c ∈ hexAlphabet) ∧
    uri2id (id2uri "track".toList (List.replicate 31 '0' ++ ['1'])) =
      List.replicate 32 '0' ∧
    List.replicate 32 '0' ≠ List.replicate 31 '0' ++ ['1'] := by
  decide

/-- Claim C4, amended: for every colon-free type and every 32-character
lowercase-hex identifier whose value is zero or exceeds `sys.maxint`
(so that CPython 2 renders it as a `long` with a trailing `L`),
`uri2id (id2uri type h) = h`. For values in `1 .. sys.maxint` the round trip
instead drops the last hex digit (see the counterexample). -/
theorem c4_round_trip (t h : List Char) (ht : ':' ∉ t)
    (hlen : h.length = 32) (hhex : ∀ c ∈ h, c ∈ hexAlphabet)
    (hmag : hexVal h = 0 ∨ maxint < hexVal h) :
    uri2id (id2uri t h) = h := by
  have hsplit : splitCh ':' (id2uri t h) = ["spotify".toList, t, id2uriIdPart h] := by
    have h1 : id2uri t h = "spotify".toList ++ ':' :: (t ++ ':' :: id2uriIdPart h) := by
      show "spotify:".toList ++ t ++ ':' :: id2uriIdPart h = _
      rw [show "spotify:".toList = "spotify".toList ++ [':'] from rfl]
      simp [List.append_assoc]
    rw [h1, splitCh_append ':' _ (by decide) _, splitCh_append ':' t ht _,
      splitCh_not_mem ':' _ (id2uriIdPart_ne_colon h)]
  simp only [uri2id]
  rw [hsplit]
  rw [if_neg (by simp)]
  show rjust (sliceTwoToLast (py2hex (decode62 (id2uriIdPart h)))) 32 '0' = h
  rw [decode62_id2uriIdPart]
  rcases hmag with hv | hv
  · -- zero value: the identifier is all zeros and so is the result
    have hz : ∀ c ∈ h, c = '0' := by
      intro c hc
      have hv0 : decodeDigits 16 (h.map hexDigitVal) = 0 := by
        rw [← hexVal_eq_decode]
        exact hv
      have hd0 := decodeDigits_eq_zero 16 (by norm_num) _ hv0 (hexDigitVal c)
        (List.mem_map_of_mem _ hc)
      exact (hex_val_zero_iff c (hhex c hc)).mp hd0
    have hrep : h = List.replicate 32 '0' := by
      have := List.eq_replicate_of_mem hz
      rwa [hlen] at this
    rw [hv, hrep]
    decide
  · -- large value: hex digits carry an L suffix that the slice strips
    have hvne : hexVal h ≠ 0 := by
      unfold maxint at hv
      omega
    have hsplit2 : h.takeWhile (fun c => c = '0') ++ h.dropWhile (fun c => c = '0') = h :=
      List.takeWhile_append_dropWhile (fun c => c = '0') h
    have htake : h.takeWhile (fun c => c = '0') =
        List.replicate (h.takeWhile (fun c => c = '0')).length '0' :=
      List.eq_replicate_of_mem (fun c hc => by
        simpa using List.mem_takeWhile_imp hc)
    have hvR : hexVal h = hexVal (h.dropWhile (fun c => c = '0')) := by
      conv_lhs => rw [← hsplit2, htake, hexVal_replicate_zero]
    have hRsub : ∀ c ∈ h.dropWhile (fun c => c = '0'), c ∈ hexAlphabet := fun c hc =>
      hhex c ((List.dropWhile_sublist (fun c => c = '0')).subset hc)
    have hdigits : ∀ d ∈ (h.dropWhile (fun c => c = '0')).map hexDigitVal, d < 16 := by
      intro d hd
      rcases List.mem_map.mp hd with ⟨c, hc, rfl⟩
      exact hex_val_lt c (hRsub c hc)
    have hheadD : ((h.dropWhile (fun c => c = '0')).map hexDigitVal).head? ≠ some 0 := by
      intro hcon
      rw [List.head?_map] at hcon
      cases hR : (h.dropWhile (fun c => c = '0')).head? with
      | none => rw [hR] at hcon; simp at hcon
      | some c =>
        rw [hR] at hcon
        have hc0 : hexDigitVal c = 0 := by simpa using hcon
        have hcmem : c ∈ h.dropWhile (fun c => c = '0') := by
          cases hRs : h.dropWhile (fun c => c = '0') with
          | nil => rw [hRs] at hR; simp at hR
          | cons x xs =>
            rw [hRs] at hR
            have : x = c := by simpa using hR
            subst this
            simp
        have hcz : c = '0' := (hex_val_zero_iff c (hRsub c hcmem)).mp hc0
        have hp := dropWhile_head_not (fun c => c = '0') h c hR
        rw [hcz] at hp
        simp at hp
    have hbase : toBase 16 (hexVal h) = (h.dropWhile (fun c => c = '0')).map hexDigitVal := by
      rw [hvR, hexVal_eq_decode]
      exact toBase_decodeDigits 16 (by norm_num) _ hdigits hheadD
    have hpy : py2hex (hexVal h) =
        "0x".toList ++ (toBase 16 (hexVal h)).map (fun d => hexAlphabet.getD d ' ') ++ ['L'] := by
      unfold py2hex toBase16 toBase
      rw [if_neg hvne, if_pos hv]
    have hslice : sliceTwoToLast (py2hex (hexVal h)) =
        (toBase 16 (hexVal h)).map (fun d => hexAlphabet.getD d ' ') := by
      rw [hpy]
      unfold sliceTwoToLast
      rw [show "0x".toList = ['0', 'x'] from rfl, List.append_assoc,
        List.drop_left' (show (['0', 'x'] : List Char).length = 2 from rfl),
        List.dropLast_concat]
    rw [hslice]
    have hmapback : (toBase 16 (hexVal h)).map (fun d => hexAlphabet.getD d ' ') =
        h.dropWhile (fun c => c = '0') := by
      rw [hbase, List.map_map]
      have hcongr : ∀ c ∈ h.dropWhile (fun c => c = '0'),
          ((fun d => hexAlphabet.getD d ' ') ∘ hexDigitVal) c = id c := by
        intro c hc
        simp only [Function.comp_apply, id_eq]
        exact hex_val_getD c (hRsub c hc)
      rw [List.map_congr_left hcongr, List.map_id]
    rw [hmapback]
    unfold rjust
    have hlens : (h.takeWhile (fun c => c = '0')).length +
        (h.dropWhile (fun c => c = '0')).length = 32 := by
      have hl := congrArg List.length hsplit2
      rwa [List.length_append, hlen] at hl
    calc List.replicate (32 - (h.dropWhile (fun c => c = '0')).length) '0' ++
          h.dropWhile (fun c => c = '0')
        = List.replicate (h.takeWhile (fun c => c = '0')).length '0' ++
          h.dropWhile (fun c => c = '0') := by
          rw [show 32 - (h.dropWhile (fun c => c = '0')).length =
            (h.takeWhile (fun c => c = '0')).length by omega]
      _ = h.takeWhile (fun c => c = '0') ++ h.dropWhile (fun c => c = '0') := by
          rw [← htake]
      _ = h := hsplit2

/-- Witness for `c4_round_trip` at a large identifier (value `2 ^ 127`). -/
theorem c4_round_trip_witness :
    uri2id (id2uri "track".toList ('8' :: List.replicate 31 '0')) =
      '8' :: List.replicate 31 '0' :=
  c4_round_trip "track".toList ('8' :: List.replicate 31 '0')
    (by decide) (by decide) (by decide) (Or.inr (by decide))

/-- Claim C8: for every 32-character hex identifier, whatever its magnitude,
the output of `id2uri` is the fixed prefix followed by an id segment of
exactly 22 base-62 characters. -/
theorem c8_padding_invariant (t h : List Char) (hlen : h.length = 32)
    (hhex : ∀ c ∈ h, c ∈ hexAlphabet) :
    id2uri t h = "spotify:".toList ++ t ++ ':' :: id2uriIdPart h ∧
    (id2uriIdPart h).length = 22 ∧
    ∀ c ∈ id2uriIdPart h, c ∈ base62 :=
  ⟨rfl, id2uriIdPart_length h hlen hhex, id2uriIdPart_mem h⟩

/-- Witness for `c8_padding_invariant` at the spec's example `00…01`, whose
id segment is 21 zeros followed by `'1'`. -/
theorem c8_padding_invariant_witness :
    (id2uriIdPart (List.replicate 31 '0' ++ ['1'])).length = 22 ∧
    id2uriIdPart (List.replicate 31 '0' ++ ['1']) = List.replicate 21 '0' ++ ['1'] :=
  ⟨(c8_padding_invariant "track".toList (List.replicate 31 '0' ++ ['1'])
      (by decide) (by decide)).2.1,
    by decide⟩

/-! ## Claims C5, C7: availability resolver -/

/-- A Boolean `if` that short-circuits to `true` is a disjunction. -/
theorem if_bool_or (b x : Bool) : (if b then true else x) = (b || x) := by
  cases b <;> simp

/-- Unfolding one iteration of `availLoop`. -/
theorem availLoop_cons (sc c : List Char) (a : AccountType) (r : Restriction)
    (rs : List Restriction) (accA accF : List (List Char)) :
    availLoop sc c a (r :: rs) accA accF =
      (ruleEval sc c a r (accA ++ chunk2 (r.countries_allowed.getD []))
          (accF ++ chunk2 (r.countries_forbidden.getD [])) ||
        availLoop sc c a rs (accA ++ chunk2 (r.countries_allowed.getD []))
          (accF ++ chunk2 (r.countries_forbidden.getD []))) := by
  rw [availLoop, if_bool_or]

/-- `availLoop` is the indexed disjunction of the per-rule evaluations, each
rule `k` judged against the lists accumulated over rules `0..k`. -/
theorem availLoop_eq_any (sc c : List Char) (a : AccountType) :
    ∀ (rs : List Restriction) (accA accF : List (List Char)),
      availLoop sc c a rs accA accF =
        (List.range rs.length).any (fun k =>
          ruleEval sc c a (rs.getD k ⟨none, none, []⟩)
            (accA ++ allowedAcc (rs.take (k + 1)))
            (accF ++ forbiddenAcc (rs.take (k + 1))))
  | [], accA, accF => by simp [availLoop]
  | r :: rs, accA, accF => by
    rw [availLoop_cons,
      availLoop_eq_any sc c a rs
        (accA ++ chunk2 (r.countries_allowed.getD []))
        (accF ++ chunk2 (r.countries_forbidden.getD []))]
    simp only [List.length_cons, List.range_succ_eq_map, List.any_cons, List.any_map]
    congr 1
    · simp [allowedAcc, forbiddenAcc]
    · congr 1
      funext k
      simp [Function.comp, allowedAcc, forbiddenAcc, List.append_assoc]

/-- Claim C5, counterexample: with session region `"DE"` and queried region
`"US"`, the single rule of `trackC5` satisfies the claim's formula
(`allowed` holds, `"US"` is not in the forbid-list), yet the code reports
the track unavailable, because `forbidden` is computed from the session's
region `self.country`, not the queried one. -/
theorem c5_rule_counterexample :
    trackC5.restriction.any (ruleSpecEval .premium "US".toList) = true ∧
    is_track_available "DE".toList .premium trackC5 "US".toList = false := by
  decide

/-- Claim C5, amended: the code evaluates rule `k` against the concatenation
of the allow/forbid chunk lists of rules `0..k` (the lists accumulate across
rules), with `allowed` tested on the queried region, `forbidden` tested on
the *session's* region against the accumulated forbid-list, the both-lists
override applied to the accumulated lists with the queried region, and the
track available iff some rule yields `allowed ∧ ¬forbidden ∧ applicable`. -/
theorem c5_rule_evaluation (selfCountry country : List Char) (acct : AccountType)
    (t : Track) :
    is_track_available selfCountry acct t country =
      (List.range t.restriction.length).any (fun k =>
        ruleEval selfCountry country acct (t.restriction.getD k ⟨none, none, []⟩)
          (allowedAcc (t.restriction.take (k + 1)))
          (forbiddenAcc (t.restriction.take (k + 1)))) := by
  have h := availLoop_eq_any selfCountry country acct t.restriction [] []
  simpa using h

/-- Claim C7: `recurse_alternatives` returns the first available candidate,
scanning the primary track and then the alternatives in listed order, and
returns the non-error sentinel (`none`, the source's `False`) when no
candidate is available. -/
theorem c7_first_usable (sc : List Char) (a : AccountType) (t : Track) (c : List Char) :
    recurse_alternatives sc a t c =
      (t :: t.alternative).find? (fun x => is_track_available sc a x c) ∧
    ((∀ x ∈ t :: t.alternative, is_track_available sc a x c = false) →
      recurse_alternatives sc a t c = none) := by
  have hfind : recurse_alternatives sc a t c =
      (t :: t.alternative).find? (fun x => is_track_available sc a x c) := by
    rw [recurse_alternatives, List.find?_cons]
    by_cases h : is_track_available sc a t c <;> simp [h]
  refine ⟨hfind, fun hall => ?_⟩
  rw [hfind]
  exact List.find?_eq_none.2 fun x hx => by simp [hall x hx]

/-- Witness for `c7_first_usable`: no candidate of `trackC7` is available,
and the resolver reports the sentinel, not an error. -/
theorem c7_first_usable_witness :
    recurse_alternatives "DE".toList .premium trackC7 "DE".toList = none :=
  (c7_first_usable "DE".toList .premium trackC7 "DE".toList).2 (by
    intro x hx
    rcases (by simpa [trackC7, Track.alternative] using hx : x = trackC7 ∨ x = Track.mk [] [] []) with h | h <;>
      (subst h; rfl))

end SpotifyWeb
